import Mathlib

/-!
Verification of the IMA-ADPCM to PCM streaming decoder (`src/server2.js`).

Shallow embedding of the ADPCM decoder (`ADPCMDecoder.decodeSample`,
`ADPCMDecoder.decode`) and the streaming container transform
(`ADPCMToPCMTransform._transform`) from `server2.js`, together with proofs
of the specified properties.

Byte sequences are modelled as `List Nat` (each element a byte value),
JavaScript numbers as `Int` where they can go negative and `Nat` where the
source guarantees non-negativity.  Node `Buffer` operations are modelled as
list surgery.  All definitions are executable.
-/

/-- The quantizer step table from `server2.js` lines 12–25 (89 entries). -/
def stepTable : List Nat :=
  [7, 8, 9, 10, 11, 12, 13, 14,
   16, 17, 19, 21, 23, 25, 28, 31,
   34, 37, 41, 45, 50, 55, 60, 66,
   73, 80, 88, 97, 107, 118, 130, 143,
   157, 173, 190, 209, 230, 253, 279, 307,
   337, 371, 408, 449, 494, 544, 598, 658,
   724, 796, 876, 963, 1060, 1166, 1282, 1411,
   1552, 1707, 1878, 2066, 2272, 2499, 2749, 3024,
   3327, 3660, 4026, 4428, 4871, 5358, 5894, 6484,
   7132, 7845, 8630, 9493, 10442, 11487, 12635, 13899,
   15289, 16818, 18500, 20350, 22385, 24623, 27086, 29794,
   32767]

/-- The index adjustment table from `server2.js` lines 27–30 (16 entries). -/
def indexTable : List Int :=
  [-1, -1, -1, -1, 2, 4, 6, 8,
   -1, -1, -1, -1, 2, 4, 6, 8]

/-- Decoder state: the `predictor` and `stepIndex` fields of `ADPCMDecoder`. -/
structure DecState where
  predictor : Int
  stepIndex : Int
deriving DecidableEq, Repr

/-- Initial decoder state, from the `ADPCMDecoder` constructor: `{0, 0}`. -/
def dInit : DecState := ⟨0, 0⟩

/-- Embedding of `ADPCMDecoder.decodeSample` (`server2.js` lines 38–64): decodes one
4-bit code, returning the new state and the emitted 16-bit sample. -/
def decodeSample (s : DecState) (code : Nat) : DecState × Int :=
  let step := stepTable.getD s.stepIndex.toNat 0
  let d0 := step >>> 3
  let d1 := d0 + (if code &&& 4 ≠ 0 then step else 0)
  let d2 := d1 + (if code &&& 2 ≠ 0 then step >>> 1 else 0)
  let difference := d2 + (if code &&& 1 ≠ 0 then step >>> 2 else 0)
  let p := if code &&& 8 ≠ 0 then s.predictor - (difference : Int)
           else s.predictor + (difference : Int)
  let p2 := min 32767 (max (-32768) p)
  let i2 := min 88 (max 0 (s.stepIndex + indexTable.getD code 0))
  (⟨p2, i2⟩, p2)

/-- Embedding of `ADPCMDecoder.decode` (`server2.js` lines 66–79): decodes a byte list,
high nibble of each byte first, returning the final state and the sample
list (two samples per input byte). -/
def decodeList (s : DecState) : List Nat → DecState × List Int
  | [] => (s, [])
  | b :: rest =>
    let r1 := decodeSample s ((b >>> 4) &&& 15)
    let r2 := decodeSample r1.1 (b &&& 15)
    let r3 := decodeList r2.1 rest
    (r3.1, r1.2 :: r2.2 :: r3.2)

/-- Little-endian byte pair of a 16-bit sample, as laid out by the
`Int16Array` buffer that `Buffer.from(pcmData.buffer)` exposes. -/
def int16LEBytes (v : Int) : List Nat :=
  let u := (v % 65536).toNat
  [u % 256, u / 256]

/-- PCM byte stream of a sample list: each sample contributes its two
little-endian bytes, in order. -/
def pcmBytes : List Int → List Nat
  | [] => []
  | v :: rest => int16LEBytes v ++ pcmBytes rest

/-- Helper for claim C2: fold `decodeSample` over a code sequence,
keeping only the state. -/
def decodeFold (s : DecState) (codes : List Nat) : DecState :=
  codes.foldl (fun st c => (decodeSample st c).1) s

-- ## Basic decoder lemmas

lemma decodeSample_bounds (s : DecState) (c : Nat) :
    -32768 ≤ (decodeSample s c).1.predictor ∧
    (decodeSample s c).1.predictor ≤ 32767 ∧
    0 ≤ (decodeSample s c).1.stepIndex ∧
    (decodeSample s c).1.stepIndex ≤ 88 := by
  simp only [decodeSample]
  split <;> omega

lemma decodeFold_bounds (codes : List Nat) (s : DecState) (h : codes ≠ []) :
    -32768 ≤ (decodeFold s codes).predictor ∧
    (decodeFold s codes).predictor ≤ 32767 ∧
    0 ≤ (decodeFold s codes).stepIndex ∧
    (decodeFold s codes).stepIndex ≤ 88 := by
  induction codes generalizing s with
  | nil => exact absurd rfl h
  | cons c rest ih =>
    cases rest with
    | nil => simpa [decodeFold] using decodeSample_bounds s c
    | cons c2 rest2 =>
      simpa [decodeFold] using ih (decodeSample s c).1 (by simp)

/-- C2: starting from the initial state `{predictor: 0, step_index: 0}`,
after every call to `decode_sample` with any 4-bit code — hence after any
nonempty sequence of such calls — the predictor lies in `[-32768, 32767]`
and the step index lies in `[0, 88]`. -/
theorem c2_decoder_state_invariant (codes : List Nat) (hne : codes ≠ [])
    (h4 : ∀ c ∈ codes, c < 16) :
    -32768 ≤ (decodeFold dInit codes).predictor ∧
    (decodeFold dInit codes).predictor ≤ 32767 ∧
    0 ≤ (decodeFold dInit codes).stepIndex ∧
    (decodeFold dInit codes).stepIndex ≤ 88 :=
  decodeFold_bounds codes dInit hne

/-- Witness for C2 at the concrete code sequence `[0, 15, 7]`. -/
theorem c2_decoder_state_invariant_witness :
    -32768 ≤ (decodeFold dInit [0, 15, 7]).predictor ∧
    (decodeFold dInit [0, 15, 7]).predictor ≤ 32767 ∧
    0 ≤ (decodeFold dInit [0, 15, 7]).stepIndex ∧
    (decodeFold dInit [0, 15, 7]).stepIndex ≤ 88 :=
  c2_decoder_state_invariant [0, 15, 7] (by decide) (by decide)

-- ## Projection lemmas for `decodeSample`

lemma decodeSample_fst_stepIndex (s : DecState) (c : Nat) :
    (decodeSample s c).1.stepIndex =
      min 88 (max 0 (s.stepIndex + indexTable.getD c 0)) := rfl

/-- C8 counterexample: from state `{0, 0}`, `decode_sample 0xF` does NOT
leave the step index at 0 (it becomes 8, since `IndexTable[15] = 8`). -/
theorem c8_counterexample : ¬ ((decodeSample dInit 15).1.stepIndex = 0) := by
  decide

/-- C8 (amended): from state `{predictor: 0, step_index: 0}`,
`decode_sample 0x0` returns 0 with the step index clamped back to 0, and
`decode_sample 0xF` makes the predictor `-11` (difference `0+7+3+1 = 11`
subtracted) with resulting step index `8` (`IndexTable[15] = 8` added to 0,
already inside the clamp range). -/
theorem c8_amended :
    decodeSample dInit 0 = (⟨0, 0⟩, 0) ∧
    decodeSample dInit 15 = (⟨-11, 8⟩, -11) := by
  decide

/-- C10: bit 3 of the code never affects the step-index update: for every
state and 4-bit code `c`, `decode_sample` on `c ||| 8` yields the same
resulting step index as on `c`, and the index table satisfies
`IndexTable[c] = IndexTable[c &&& 7]`. -/
theorem c10_sign_bit_independence (s : DecState) (c : Nat) (h : c < 16) :
    (decodeSample s (c ||| 8)).1.stepIndex = (decodeSample s c).1.stepIndex ∧
    indexTable.getD c 0 = indexTable.getD (c &&& 7) 0 := by
  constructor
  · rw [decodeSample_fst_stepIndex, decodeSample_fst_stepIndex]
    interval_cases c <;> rfl
  · interval_cases c <;> rfl

/-- Witness for C10 at state `{0, 0}` and code `3`. -/
theorem c10_sign_bit_independence_witness :
    (decodeSample dInit (3 ||| 8)).1.stepIndex =
      (decodeSample dInit 3).1.stepIndex ∧
    indexTable.getD 3 0 = indexTable.getD (3 &&& 7) 0 :=
  c10_sign_bit_independence dInit 3 (by decide)

-- ## C3: the per-code algorithm as worded by the specification

/-- The per-code decoding algorithm exactly as the specification words it
(§4.1): `difference = StepTable[step_index] >> 3`, plus `step`, `step >> 1`,
`step >> 2` when bits 2, 1, 0 of the code are set; bit 3 chooses subtraction
vs addition; the predictor is clamped to `[-32768, 32767]`; `IndexTable[code]`
is added to the step index, which is clamped to `[0, 88]`; the clamped
predictor is returned. Written from the spec to be compared against
`decodeSample`, which is written from the source. -/
def decodeSampleSpec (s : DecState) (code : Nat) : DecState × Int :=
  let step := stepTable.getD s.stepIndex.toNat 0
  let difference :=
    step >>> 3 + (if code.testBit 2 then step else 0)
      + (if code.testBit 1 then step >>> 1 else 0)
      + (if code.testBit 0 then step >>> 2 else 0)
  let p := if code.testBit 3 then s.predictor - (difference : Int)
           else s.predictor + (difference : Int)
  let p2 := min 32767 (max (-32768) p)
  let i2 := min 88 (max 0 (s.stepIndex + indexTable.getD code 0))
  (⟨p2, i2⟩, p2)

/-- C3: `decode_sample` from the source implements the per-code algorithm
specified in §4.1, for every state with step index in `[0, 88]` and every
4-bit code. -/
theorem c3_decode_sample_matches_spec (s : DecState) (code : Nat)
    (h0 : 0 ≤ s.stepIndex) (h88 : s.stepIndex ≤ 88) (hc : code < 16) :
    decodeSample s code = decodeSampleSpec s code := by
  interval_cases code <;> rfl

/-- Witness for C3 at state `{0, 0}` and code `5`. -/
theorem c3_decode_sample_matches_spec_witness :
    decodeSample dInit 5 = decodeSampleSpec dInit 5 :=
  c3_decode_sample_matches_spec dInit 5 (by decide) (by decide) (by decide)

-- ## The streaming container transform (`ADPCMToPCMTransform`)

/-- Model of `Buffer.write` / `writeIntLE` at offset `off`: overwrites
`data.length` bytes of `buf` starting at `off`, clipping at the end of the
buffer (a Node `Buffer` write never extends the buffer). -/
def bufWrite (buf : List Nat) (off : Nat) (data : List Nat) : List Nat :=
  buf.take off ++ data.take (buf.length - off) ++ buf.drop (off + data.length)

/-- Model of `Buffer.alloc(44)` (zero-filled) followed by
`chunk.copy(header, 0, 0, 44)`: the first `min chunk.length 44` bytes come
from the chunk, the rest stay zero. -/
def bufAllocCopy (c : List Nat) : List Nat :=
  c.take 44 ++ List.replicate (44 - c.length) 0

/-- Little-endian layout of `writeInt32LE` for a non-negative value. -/
def int32LE (v : Nat) : List Nat :=
  [v % 256, v / 256 % 256, v / 65536 % 256, v / 16777216 % 256]

/-- Little-endian layout of `writeInt16LE` for a non-negative value. -/
def int16LE (v : Nat) : List Nat :=
  [v % 256, v / 256 % 256]

/-- The header rewrite of `_transform` (`server2.js` lines 110–124): copy
the first 44 chunk bytes into a zeroed 44-byte buffer, then overwrite the
RIFF/WAVE/fmt/data tags and the PCM format fields. -/
def mkHeader (c : List Nat) : List Nat :=
  let h0 := bufAllocCopy c
  let h1 := bufWrite h0 0 [82, 73, 70, 70]
  let h2 := bufWrite h1 8 [87, 65, 86, 69]
  let h3 := bufWrite h2 12 [102, 109, 116, 32]
  let h4 := bufWrite h3 16 (int32LE 16)
  let h5 := bufWrite h4 20 (int16LE 1)
  let h6 := bufWrite h5 22 (int16LE 1)
  let h7 := bufWrite h6 24 (int32LE 16000)
  let h8 := bufWrite h7 28 (int32LE 32000)
  let h9 := bufWrite h8 32 (int16LE 2)
  let h10 := bufWrite h9 34 (int16LE 16)
  bufWrite h10 36 [100, 97, 116, 97]

/-- Transform state: the `decoder` and `headerWritten` fields of
`ADPCMToPCMTransform`. -/
structure TState where
  decoder : DecState
  headerWritten : Bool
deriving DecidableEq, Repr

/-- Initial transform state, from the `ADPCMToPCMTransform` constructor. -/
def tInit : TState := ⟨dInit, false⟩

/-- Embedding of `ADPCMToPCMTransform._transform` (`server2.js` lines 107–140) on one
chunk: on the first chunk, rewrite and push the 44-byte header, then decode
any bytes beyond offset 44; on later chunks, decode the whole chunk. -/
def transformChunk (t : TState) (chunk : List Nat) : TState × List Nat :=
  if t.headerWritten then
    let r := decodeList t.decoder chunk
    (⟨r.1, t.headerWritten⟩, pcmBytes r.2)
  else
    let header := mkHeader chunk
    if 44 < chunk.length then
      let r := decodeList t.decoder (chunk.drop 44)
      (⟨r.1, true⟩, header ++ pcmBytes r.2)
    else
      (⟨t.decoder, true⟩, header)

/-- Feeding a list of chunks through the transform in order, concatenating
the pushed output. -/
def transformChunks (t : TState) : List (List Nat) → TState × List Nat
  | [] => (t, [])
  | c :: cs =>
    let r1 := transformChunk t c
    let r2 := transformChunks r1.1 cs
    (r2.1, r1.2 ++ r2.2)

/-- Whole-stream output of one `ADPCMToPCMTransform` instance on a chunk
sequence. -/
def transformAll (chunks : List (List Nat)) : List Nat :=
  (transformChunks tInit chunks).2

-- ## Compositionality of the decoder over byte-stream splits

lemma decodeList_append (a b : List Nat) (s : DecState) :
    decodeList s (a ++ b) =
      ((decodeList (decodeList s a).1 b).1,
        (decodeList s a).2 ++ (decodeList (decodeList s a).1 b).2) := by
  induction a generalizing s with
  | nil => simp [decodeList]
  | cons x xs ih => simp [decodeList, ih]

lemma pcmBytes_append (a b : List Int) :
    pcmBytes (a ++ b) = pcmBytes a ++ pcmBytes b := by
  induction a with
  | nil => simp [pcmBytes]
  | cons v vs ih => simp [pcmBytes, ih]

lemma decodeList_snd_length (bs : List Nat) (s : DecState) :
    (decodeList s bs).2.length = 2 * bs.length := by
  induction bs generalizing s with
  | nil => simp [decodeList]
  | cons b rest ih => simp [decodeList, ih]; ring

lemma pcmBytes_length (l : List Int) :
    (pcmBytes l).length = 2 * l.length := by
  induction l with
  | nil => simp [pcmBytes]
  | cons v vs ih => simp [pcmBytes, int16LEBytes, ih]; ring

-- ## Behaviour of the transform on the first and later chunks

lemma transformChunk_first (d : DecState) (c : List Nat) :
    transformChunk ⟨d, false⟩ c =
      (⟨(decodeList d (c.drop 44)).1, true⟩,
        mkHeader c ++ pcmBytes (decodeList d (c.drop 44)).2) := by
  by_cases h : 44 < c.length
  · simp [transformChunk, h]
  · have hd : c.drop 44 = [] := List.drop_eq_nil_of_le (by omega)
    simp [transformChunk, h, hd, decodeList, pcmBytes]

lemma transformChunks_streaming (cs : List (List Nat)) (d : DecState) :
    transformChunks ⟨d, true⟩ cs =
      (⟨(decodeList d cs.flatten).1, true⟩,
        pcmBytes (decodeList d cs.flatten).2) := by
  induction cs generalizing d with
  | nil => simp [transformChunks, decodeList, pcmBytes]
  | cons c rest ih =>
    simp [transformChunks, transformChunk, ih, decodeList_append,
      pcmBytes_append]

lemma transformChunks_run (c0 : List Nat) (cs : List (List Nat)) :
    transformChunks tInit (c0 :: cs) =
      (⟨(decodeList dInit (c0.drop 44 ++ cs.flatten)).1, true⟩,
        mkHeader c0 ++ pcmBytes (decodeList dInit (c0.drop 44 ++ cs.flatten)).2) := by
  simp [transformChunks, tInit, transformChunk_first, transformChunks_streaming,
    decodeList_append, pcmBytes_append]

-- ## C1: chunking invariance

lemma bufAllocCopy_append (c x : List Nat) (h : 44 ≤ c.length) :
    bufAllocCopy (c ++ x) = bufAllocCopy c := by
  simp [bufAllocCopy, List.take_append_of_le_length h]
  omega

lemma mkHeader_append (c x : List Nat) (h : 44 ≤ c.length) :
    mkHeader (c ++ x) = mkHeader c := by
  simp [mkHeader, bufAllocCopy_append c x h]

/-- C1: chunking invariance of the streaming transform. For every byte
sequence split as a first chunk `c0` of at least 44 bytes followed by any
further chunks `cs`, feeding the chunks one by one produces output
byte-identical to feeding the whole sequence `c0 ++ cs.flatten` as one
single chunk. -/
theorem c1_chunking_invariance (c0 : List Nat) (cs : List (List Nat))
    (h : 44 ≤ c0.length) :
    transformAll (c0 :: cs) = transformAll [c0 ++ cs.flatten] := by
  unfold transformAll
  rw [transformChunks_run, transformChunks_run]
  simp [mkHeader_append c0 cs.flatten h, List.drop_append_of_le_length h]

/-- Witness for C1: a 44-byte header followed by payload `[171]`, fed as
two chunks vs one. -/
theorem c1_chunking_invariance_witness :
    transformAll [List.replicate 44 7, [171]] =
      transformAll [List.replicate 44 7 ++ [[171]].flatten] :=
  c1_chunking_invariance (List.replicate 44 7) [[171]] (by decide)

-- ## Header length

lemma bufWrite_length (buf data : List Nat) (off : Nat) :
    (bufWrite buf off data).length = buf.length := by
  simp [bufWrite]
  omega

lemma bufAllocCopy_length (c : List Nat) :
    (bufAllocCopy c).length = 44 := by
  simp [bufAllocCopy]
  omega

lemma mkHeader_length (c : List Nat) : (mkHeader c).length = 44 := by
  simp [mkHeader, bufWrite_length, bufAllocCopy_length]

/-- C5: once-only header emission. The whole output of a transform run on
chunks `c0 :: cs` is exactly one 44-byte header — built from the first
chunk — followed by PCM sample bytes only; the `headerWritten` flag is true
already after the first chunk and stays true; and from any already-written
state the remaining chunks execute no header logic, emitting PCM bytes
only. -/
theorem c5_header_emitted_once (c0 : List Nat) (cs : List (List Nat))
    (d : DecState) :
    transformAll (c0 :: cs) =
      mkHeader c0 ++ pcmBytes (decodeList dInit (c0.drop 44 ++ cs.flatten)).2 ∧
    (mkHeader c0).length = 44 ∧
    (transformChunk tInit c0).1.headerWritten = true ∧
    (transformChunks tInit (c0 :: cs)).1.headerWritten = true ∧
    transformChunks ⟨d, true⟩ cs =
      (⟨(decodeList d cs.flatten).1, true⟩,
        pcmBytes (decodeList d cs.flatten).2) := by
  refine ⟨?_, mkHeader_length c0, ?_, ?_, transformChunks_streaming cs d⟩
  · unfold transformAll
    rw [transformChunks_run]
  · simp [tInit, transformChunk_first]
  · rw [transformChunks_run]

/-- C4: each input byte decodes to exactly two samples (high nibble first,
then low nibble), so `N` payload bytes yield `2N` samples and `4N` PCM
bytes, and a whole transform run emits exactly `44 + 4N` bytes for `N`
payload bytes. -/
theorem c4_two_samples_per_byte (s : DecState) (bs : List Nat) (b : Nat)
    (c0 : List Nat) (cs : List (List Nat)) :
    (decodeList s bs).2.length = 2 * bs.length ∧
    (decodeList s [b]).2 =
      [(decodeSample s ((b >>> 4) &&& 15)).2,
        (decodeSample (decodeSample s ((b >>> 4) &&& 15)).1 (b &&& 15)).2] ∧
    (pcmBytes (decodeList s bs).2).length = 4 * bs.length ∧
    (transformAll (c0 :: cs)).length =
      44 + 4 * (c0.drop 44 ++ cs.flatten).length := by
  refine ⟨decodeList_snd_length bs s, rfl, ?_, ?_⟩
  · rw [pcmBytes_length, decodeList_snd_length]
    ring
  · unfold transformAll
    rw [transformChunks_run]
    simp [mkHeader_length, pcmBytes_length, decodeList_snd_length]
    ring

-- ## Byte-level view of the header rewrite

lemma bufWrite_getElem (buf data : List Nat) (off i : Nat)
    (h : off + data.length ≤ buf.length) :
    (bufWrite buf off data)[i]? =
      if i < off then buf[i]?
      else if i < off + data.length then data[i - off]?
      else buf[i]? := by
  have htake : data.take (buf.length - off) = data :=
    List.take_of_length_le (by omega)
  have hlen : (buf.take off).length = off := by
    rw [List.length_take]
    omega
  unfold bufWrite
  rw [htake, List.append_assoc]
  by_cases h1 : i < off
  · rw [if_pos h1, List.getElem?_append, hlen, if_pos h1,
      List.getElem?_take, if_pos h1]
  · rw [if_neg h1, List.getElem?_append_right (by omega), hlen]
    by_cases h2 : i < off + data.length
    · rw [if_pos h2, List.getElem?_append, if_pos (by omega)]
    · rw [if_neg h2, List.getElem?_append, if_neg (by omega),
        List.getElem?_drop]
      congr 1
      omega

/-- Expected byte of the rewritten header at each offset: the constants
written by `_transform`, and the copied source byte at the offsets the
rewrite leaves alone (4–7, the RIFF chunk size, and 40–43, the data
subchunk size). -/
def hdrExpected (base : List Nat) : Nat → Nat
  | 0 => 82 | 1 => 73 | 2 => 70 | 3 => 70
  | 8 => 87 | 9 => 65 | 10 => 86 | 11 => 69
  | 12 => 102 | 13 => 109 | 14 => 116 | 15 => 32
  | 16 => 16 | 17 => 0 | 18 => 0 | 19 => 0
  | 20 => 1 | 21 => 0
  | 22 => 1 | 23 => 0
  | 24 => 128 | 25 => 62 | 26 => 0 | 27 => 0
  | 28 => 0 | 29 => 125 | 30 => 0 | 31 => 0
  | 32 => 2 | 33 => 0
  | 34 => 16 | 35 => 0
  | 36 => 100 | 37 => 97 | 38 => 116 | 39 => 97
  | i => base.getD i 0

lemma mkHeader_getD_eq (c : List Nat) (i : Nat) (h : i < 44) :
    (mkHeader c).getD i 0 = hdrExpected (bufAllocCopy c) i := by
  interval_cases i <;>
    simp only [List.getD_eq_getElem?_getD, mkHeader, bufWrite_getElem,
      bufWrite_length, bufAllocCopy_length, List.length_cons, List.length_nil,
      int32LE, int16LE, Nat.reduceAdd, Nat.reduceSub, Nat.reduceLT,
      Nat.reduceLeDiff, reduceIte, List.getElem?_cons_zero,
      List.getElem?_cons_succ, Option.getD_some, hdrExpected]

lemma transformAll_getD_header (c0 : List Nat) (cs : List (List Nat))
    (i : Nat) (h : i < 44) :
    (transformAll (c0 :: cs)).getD i 0 = (mkHeader c0).getD i 0 := by
  unfold transformAll
  rw [transformChunks_run]
  rw [List.getD_eq_getElem?_getD, List.getD_eq_getElem?_getD,
    List.getElem?_append, if_pos (by rw [mkHeader_length]; omega)]

lemma output_header_byte (c0 : List Nat) (cs : List (List Nat))
    (i : Nat) (h : i < 44) :
    (transformAll (c0 :: cs)).getD i 0 = hdrExpected (bufAllocCopy c0) i := by
  rw [transformAll_getD_header c0 cs i h, mkHeader_getD_eq c0 i h]

lemma bufAllocCopy_getD (c : List Nat) (i : Nat) (hi : i < 44)
    (hc : 44 ≤ c.length) :
    (bufAllocCopy c).getD i 0 = c.getD i 0 := by
  simp only [bufAllocCopy, List.getD_eq_getElem?_getD]
  rw [List.getElem?_append, List.length_take, if_pos (by omega),
    List.getElem?_take, if_pos hi]

/-- C6: header field values. For every run whose first chunk holds the whole
44-byte header, the emitted bytes satisfy: 0–3 `"RIFF"`, 8–11 `"WAVE"`,
12–15 `"fmt "`, 20–21 little-endian audio format 1, 22–23 channel count 1,
24–27 sample rate 16000, 28–31 byte rate 32000, 32–33 block align 2,
34–35 bits-per-sample 16, 36–39 `"data"`. -/
theorem c6_header_field_values (c0 : List Nat) (cs : List (List Nat))
    (h : 44 ≤ c0.length) :
    (transformAll (c0 :: cs)).getD 0 0 = 82 ∧
    (transformAll (c0 :: cs)).getD 1 0 = 73 ∧
    (transformAll (c0 :: cs)).getD 2 0 = 70 ∧
    (transformAll (c0 :: cs)).getD 3 0 = 70 ∧
    (transformAll (c0 :: cs)).getD 8 0 = 87 ∧
    (transformAll (c0 :: cs)).getD 9 0 = 65 ∧
    (transformAll (c0 :: cs)).getD 10 0 = 86 ∧
    (transformAll (c0 :: cs)).getD 11 0 = 69 ∧
    (transformAll (c0 :: cs)).getD 12 0 = 102 ∧
    (transformAll (c0 :: cs)).getD 13 0 = 109 ∧
    (transformAll (c0 :: cs)).getD 14 0 = 116 ∧
    (transformAll (c0 :: cs)).getD 15 0 = 32 ∧
    (transformAll (c0 :: cs)).getD 20 0 + 256 * (transformAll (c0 :: cs)).getD 21 0 = 1 ∧
    (transformAll (c0 :: cs)).getD 22 0 + 256 * (transformAll (c0 :: cs)).getD 23 0 = 1 ∧
    (transformAll (c0 :: cs)).getD 24 0 + 256 * (transformAll (c0 :: cs)).getD 25 0
      + 65536 * (transformAll (c0 :: cs)).getD 26 0
      + 16777216 * (transformAll (c0 :: cs)).getD 27 0 = 16000 ∧
    (transformAll (c0 :: cs)).getD 28 0 + 256 * (transformAll (c0 :: cs)).getD 29 0
      + 65536 * (transformAll (c0 :: cs)).getD 30 0
      + 16777216 * (transformAll (c0 :: cs)).getD 31 0 = 32000 ∧
    (transformAll (c0 :: cs)).getD 32 0 + 256 * (transformAll (c0 :: cs)).getD 33 0 = 2 ∧
    (transformAll (c0 :: cs)).getD 34 0 + 256 * (transformAll (c0 :: cs)).getD 35 0 = 16 ∧
    (transformAll (c0 :: cs)).getD 36 0 = 100 ∧
    (transformAll (c0 :: cs)).getD 37 0 = 97 ∧
    (transformAll (c0 :: cs)).getD 38 0 = 116 ∧
    (transformAll (c0 :: cs)).getD 39 0 = 97 := by
  have H : ∀ i, i < 44 →
      (transformAll (c0 :: cs)).getD i 0 = hdrExpected (bufAllocCopy c0) i :=
    output_header_byte c0 cs
  rw [H 0 (by norm_num), H 1 (by norm_num), H 2 (by norm_num),
    H 3 (by norm_num), H 8 (by norm_num), H 9 (by norm_num),
    H 10 (by norm_num), H 11 (by norm_num), H 12 (by norm_num),
    H 13 (by norm_num), H 14 (by norm_num), H 15 (by norm_num),
    H 20 (by norm_num), H 21 (by norm_num), H 22 (by norm_num),
    H 23 (by norm_num), H 24 (by norm_num), H 25 (by norm_num),
    H 26 (by norm_num), H 27 (by norm_num), H 28 (by norm_num),
    H 29 (by norm_num), H 30 (by norm_num), H 31 (by norm_num),
    H 32 (by norm_num), H 33 (by norm_num), H 34 (by norm_num),
    H 35 (by norm_num), H 36 (by norm_num), H 37 (by norm_num),
    H 38 (by norm_num), H 39 (by norm_num)]
  norm_num [hdrExpected]

/-- Witness for C6: a first chunk of 44 zero bytes and no further chunks. -/
theorem c6_header_field_values_witness :
    (transformAll [List.replicate 44 0]).getD 0 0 = 82 ∧
    (transformAll [List.replicate 44 0]).getD 1 0 = 73 ∧
    (transformAll [List.replicate 44 0]).getD 2 0 = 70 ∧
    (transformAll [List.replicate 44 0]).getD 3 0 = 70 ∧
    (transformAll [List.replicate 44 0]).getD 8 0 = 87 ∧
    (transformAll [List.replicate 44 0]).getD 9 0 = 65 ∧
    (transformAll [List.replicate 44 0]).getD 10 0 = 86 ∧
    (transformAll [List.replicate 44 0]).getD 11 0 = 69 ∧
    (transformAll [List.replicate 44 0]).getD 12 0 = 102 ∧
    (transformAll [List.replicate 44 0]).getD 13 0 = 109 ∧
    (transformAll [List.replicate 44 0]).getD 14 0 = 116 ∧
    (transformAll [List.replicate 44 0]).getD 15 0 = 32 ∧
    (transformAll [List.replicate 44 0]).getD 20 0 + 256 * (transformAll [List.replicate 44 0]).getD 21 0 = 1 ∧
    (transformAll [List.replicate 44 0]).getD 22 0 + 256 * (transformAll [List.replicate 44 0]).getD 23 0 = 1 ∧
    (transformAll [List.replicate 44 0]).getD 24 0 + 256 * (transformAll [List.replicate 44 0]).getD 25 0
      + 65536 * (transformAll [List.replicate 44 0]).getD 26 0
      + 16777216 * (transformAll [List.replicate 44 0]).getD 27 0 = 16000 ∧
    (transformAll [List.replicate 44 0]).getD 28 0 + 256 * (transformAll [List.replicate 44 0]).getD 29 0
      + 65536 * (transformAll [List.replicate 44 0]).getD 30 0
      + 16777216 * (transformAll [List.replicate 44 0]).getD 31 0 = 32000 ∧
    (transformAll [List.replicate 44 0]).getD 32 0 + 256 * (transformAll [List.replicate 44 0]).getD 33 0 = 2 ∧
    (transformAll [List.replicate 44 0]).getD 34 0 + 256 * (transformAll [List.replicate 44 0]).getD 35 0 = 16 ∧
    (transformAll [List.replicate 44 0]).getD 36 0 = 100 ∧
    (transformAll [List.replicate 44 0]).getD 37 0 = 97 ∧
    (transformAll [List.replicate 44 0]).getD 38 0 = 116 ∧
    (transformAll [List.replicate 44 0]).getD 39 0 = 97 :=
  c6_header_field_values (List.replicate 44 0) [] (by decide)

/-- C9: the data-subchunk-size field is never patched: for every run whose
first chunk is at least 44 bytes, output bytes 40–43 are the input bytes
40–43 unchanged (they come straight from the copied source header). -/
theorem c9_data_size_passthrough (c0 : List Nat) (cs : List (List Nat))
    (h : 44 ≤ c0.length) :
    (transformAll (c0 :: cs)).getD 40 0 = c0.getD 40 0 ∧
    (transformAll (c0 :: cs)).getD 41 0 = c0.getD 41 0 ∧
    (transformAll (c0 :: cs)).getD 42 0 = c0.getD 42 0 ∧
    (transformAll (c0 :: cs)).getD 43 0 = c0.getD 43 0 := by
  rw [output_header_byte c0 cs 40 (by norm_num),
    output_header_byte c0 cs 41 (by norm_num),
    output_header_byte c0 cs 42 (by norm_num),
    output_header_byte c0 cs 43 (by norm_num)]
  exact ⟨bufAllocCopy_getD c0 40 (by norm_num) h,
    bufAllocCopy_getD c0 41 (by norm_num) h,
    bufAllocCopy_getD c0 42 (by norm_num) h,
    bufAllocCopy_getD c0 43 (by norm_num) h⟩

/-- Witness for C9: a 44-byte first chunk `[0, 1, ..., 43]`, whose bytes
40–43 are `[40, 41, 42, 43]`. -/
theorem c9_data_size_passthrough_witness :
    (transformAll [List.range 44]).getD 40 0 = (List.range 44).getD 40 0 ∧
    (transformAll [List.range 44]).getD 41 0 = (List.range 44).getD 41 0 ∧
    (transformAll [List.range 44]).getD 42 0 = (List.range 44).getD 42 0 ∧
    (transformAll [List.range 44]).getD 43 0 = (List.range 44).getD 43 0 :=
  c9_data_size_passthrough (List.range 44) [] (by decide)

/-- C7 (behaviour of the code at the failing input): a first — and only —
chunk of just 10 bytes does NOT surface any error; `_transform` silently
emits a full 44-byte header in which the bytes beyond the chunk (here
offsets 40–43, the data-size field) are the `Buffer.alloc` zero padding,
and the stream completes normally. -/
theorem c7_short_first_chunk_zero_pads :
    transformAll [[1, 2, 3, 4, 5, 6, 7, 8, 9, 10]] =
      [82, 73, 70, 70, 5, 6, 7, 8, 87, 65, 86, 69, 102, 109, 116, 32,
       16, 0, 0, 0, 1, 0, 1, 0, 128, 62, 0, 0, 0, 125, 0, 0, 2, 0, 16, 0,
       100, 97, 116, 97, 0, 0, 0, 0] := by
  decide
